import Mathlib

/-!
Shallow embedding of the Industrial-HR dashboard's data pipeline
(`ihr_app_final.py`): column validation, numeric coercion, derived
columns (`Total Workers`, `Female Ratio`, `Urban Ratio`,
`Industry Category`), and the insight computations built on pandas
group-by aggregation.

Modelling conventions:
* a table is a column-name list plus a list of rows; a row is an
  association list from column names to cells (first binding wins,
  matching the uniqueness of pandas column labels);
* floating-point numerics are modelled exactly over `ℚ`; a bare pandas
  division whose denominator is `0` produces a non-finite value
  (`inf`/`NaN`) which the source immediately replaces by `0`
  (`replace`/`fillna`), so division with a zero-denominator guard
  (`safeDiv`) embeds the composite operation;
* pandas `Series.idxmax` on an empty series raises `ValueError`; it is
  embedded as an `Option`-returning function with `none` as the error;
* pandas `groupby` (with its default `sort=True`) produces groups keyed
  by the sorted list of distinct keys; sorting of strings is the
  code-point lexicographic order, which is Mathlib's `LinearOrder String`.
-/

attribute [local semireducible] Rat.add Rat.mul Rat.inv Rat.sub

namespace IHR

/-- Tabular cell values: a numeric value, a text value, or a missing value
(pandas `NaN`).  Python floats are modelled exactly by rationals. -/
inductive Cell where
  | num (q : ℚ)
  | text (s : String)
  | na
deriving DecidableEq, Repr

/-- A row: association list from column name to cell (first binding wins). -/
abbrev Row := List (String × Cell)

/-- A data frame: header list plus rows. -/
structure DF where
  cols : List String
  rows : List Row
deriving DecidableEq, Repr

/-- Reading a cell of a row; absent columns read as missing. -/
def getCell : Row → String → Cell
  | [], _ => Cell.na
  | p :: t, c => if p.1 = c then p.2 else getCell t c

/-- Column assignment on a row: overwrite the existing binding in place,
or append a new binding at the end (pandas column assignment). -/
def setCell : Row → String → Cell → Row
  | [], c, v => [(c, v)]
  | p :: t, c, v => if p.1 = c then (c, v) :: t else p :: setCell t c v

/-- ASCII lower-casing of one character: the fragment of Python
`str.lower` relevant to the classifier's all-ASCII keywords. -/
def lowerChar (c : Char) : Char :=
  if 65 ≤ c.toNat ∧ c.toNat ≤ 90 then Char.ofNat (c.toNat + 32) else c

/-- The lower-cased character list of a string (`name.lower()`). -/
def lowerName (s : String) : List Char := s.toList.map lowerChar

/-- Substring test on character lists: Python's `x in name`. -/
def containsSub (n : List Char) : List Char → Bool
  | [] => n.isEmpty
  | c :: t => n.isPrefixOf (c :: t) || containsSub n t

/-- Python's `any(x in name for x in kws)`. -/
def containsAny (name : List Char) (kws : List String) : Bool :=
  kws.any fun k => containsSub k.toList name

/-- Body of `classify_industry` after lower-casing: the fixed priority
chain of keyword rules from the source. -/
def classifyName (name : List Char) : String :=
  if containsAny name ["crop", "animal", "farm", "agriculture"] then "Agriculture"
  else if containsAny name ["manufactur", "factory", "production"] then "Manufacturing"
  else if containsAny name ["retail", "trade", "shop"] then "Retail & Trade"
  else if containsAny name ["poultry", "cattle", "livestock"] then "Poultry & Livestock"
  else if containsAny name ["mining", "quarry", "coal"] then "Mining"
  else "Other"

/-- `classify_industry` from the source: non-string cells are `Other`
(the `isinstance(name, str)` guard), strings are lower-cased and run
through the keyword chain. -/
def classify_industry : Cell → String
  | Cell.text s => classifyName (lowerName s)
  | _ => "Other"

/-- The six category labels the classifier can produce. -/
def categories : List String :=
  ["Agriculture", "Manufacturing", "Retail & Trade", "Poultry & Livestock", "Mining", "Other"]

/-- Decimal digit value of a character, if it is a digit. -/
def digitVal (c : Char) : Option Nat :=
  if c.isDigit then some (c.toNat - 48) else none

/-- Accumulating decimal reading of a digit list; fails on a non-digit. -/
def digitsValAux : List Char → Nat → Option Nat
  | [], acc => some acc
  | c :: t, acc =>
    match digitVal c with
    | some d => digitsValAux t (acc * 10 + d)
    | none => none

/-- Value of a possibly-empty digit run (empty reads as 0). -/
def digitsVal0 (l : List Char) : Option Nat := digitsValAux l 0

/-- Numeric reading of a text cell: the fragment of pandas `to_numeric`
string parsing covering an optional sign, integer digits, and an optional
fractional part.  Any other text fails to parse (and is coerced to 0
downstream by `fillna`). -/
def parseQ (s : String) : Option ℚ :=
  let cs := s.toList
  let sgn : ℚ := match cs with
    | '-' :: _ => -1
    | _ => 1
  let body : List Char := match cs with
    | '-' :: t => t
    | '+' :: t => t
    | _ => cs
  let ip := body.takeWhile fun c => c ≠ '.'
  let rest := body.dropWhile fun c => c ≠ '.'
  match rest with
  | [] =>
    if ip.isEmpty then none
    else (digitsVal0 ip).map fun n => sgn * n
  | _ :: fp =>
    if ip.isEmpty && fp.isEmpty then none
    else
      match digitsVal0 ip, digitsVal0 fp with
      | some n, some f => some (sgn * ((n : ℚ) + (f : ℚ) / 10 ^ fp.length))
      | _, _ => none

/-- Value of an already-numeric cell (0 otherwise). -/
def asNum : Cell → ℚ
  | Cell.num q => q
  | _ => 0

/-- pandas `to_numeric(·, errors='coerce').fillna(0)` on one cell:
numbers pass through, parsable text becomes its number, anything that
fails coercion (non-numeric text, missing) becomes 0. -/
def to_numeric : Cell → Cell
  | Cell.num q => Cell.num q
  | Cell.text s => Cell.num ((parseQ s).getD 0)
  | Cell.na => Cell.num 0

/-- `required_cols` exactly as listed in the source (`NIC_Name` first,
then the ten numeric columns). -/
def required_cols : List String :=
  ["NIC_Name", "Main_Workers_Total_Persons", "Marginal_Workers_Total_Persons",
   "Main_Workers_Total_Females", "Marginal_Workers_Total_Females",
   "Main_Workers_Urban_Persons", "Marginal_Workers_Urban_Persons",
   "Main_Workers_Rural_Persons", "Marginal_Workers_Rural_Persons",
   "Main_Workers_Total_Males", "Marginal_Workers_Total_Males"]

/-- The ten numeric columns: `required_cols[1:]` in the source. -/
def numeric_cols : List String := required_cols.drop 1

/-- The four columns the transformer adds, in assignment order. -/
def derived_cols : List String :=
  ["Total Workers", "Female Ratio", "Urban Ratio", "Industry Category"]

/-- The coercion loop `for col in required_cols[1:]`. -/
def coerceCols : List String → Row → Row
  | [], r => r
  | c :: cs, r => coerceCols cs (setCell r c (to_numeric (getCell r c)))

/-- Division followed by the source's `replace([inf, -inf], 0).fillna(0)`:
a zero denominator (the only source of a non-finite float here) yields 0. -/
def safeDiv (a b : ℚ) : ℚ := if b = 0 then 0 else a / b

/-- The per-row body of `process_data` after validation: coerce the ten
numeric columns, then assign `Total Workers`, `Female Ratio`,
`Urban Ratio` (non-finite values replaced by 0) and `Industry Category`
in the source's order. -/
def transformRow (r : Row) : Row :=
  let r1 := coerceCols numeric_cols r
  let r2 := setCell r1 "Total Workers"
    (Cell.num (asNum (getCell r1 "Main_Workers_Total_Persons") +
               asNum (getCell r1 "Marginal_Workers_Total_Persons")))
  let r3 := setCell r2 "Female Ratio"
    (Cell.num (safeDiv (asNum (getCell r2 "Main_Workers_Total_Females") +
                        asNum (getCell r2 "Marginal_Workers_Total_Females"))
                       (asNum (getCell r2 "Total Workers"))))
  let r4 := setCell r3 "Urban Ratio"
    (Cell.num (safeDiv (asNum (getCell r3 "Main_Workers_Urban_Persons") +
                        asNum (getCell r3 "Marginal_Workers_Urban_Persons"))
                       (asNum (getCell r3 "Total Workers"))))
  setCell r4 "Industry Category" (Cell.text (classify_industry (getCell r4 "NIC_Name")))

/-- Header of the transformed table: pandas column assignment appends a
column at the end when new and leaves it in place when it already exists. -/
def transform_cols (cols : List String) : List String :=
  cols ++ derived_cols.filter fun c => !(cols.contains c)

/-- The whole transformation stage of `process_data` on a validated table. -/
def transform (df : DF) : DF :=
  ⟨transform_cols df.cols, df.rows.map transformRow⟩

instance {ε α : Type} [DecidableEq ε] [DecidableEq α] : DecidableEq (Except ε α) := fun a b =>
  match a, b with
  | Except.error e, Except.error f =>
    if h : e = f then isTrue (by rw [h]) else isFalse fun hh => h (Except.error.inj hh)
  | Except.error e, Except.ok y => isFalse fun hh => Except.noConfusion hh
  | Except.ok x, Except.error f => isFalse fun hh => Except.noConfusion hh
  | Except.ok x, Except.ok y =>
    if h : x = y then isTrue (by rw [h]) else isFalse fun hh => h (Except.ok.inj hh)

/-- The validator's missing-column list:
`[col for col in required_cols if col not in df.columns]`. -/
def missingCols (df : DF) : List String :=
  required_cols.filter fun c => !(df.cols.contains c)

/-- `process_data`: report the missing columns and return an empty table
(embedded as `Except.error missing`), or transform the validated table. -/
def process_data (df : DF) : Except (List String) DF :=
  if missingCols df = [] then Except.ok (transform df) else Except.error (missingCols df)

/-- The row's `Industry Category` value, as the string group key it is
on every transformed table. -/
def catOf (r : Row) : String :=
  match getCell r "Industry Category" with
  | Cell.text s => s
  | _ => ""

/-- Code-point lexicographic comparison of character lists: the order in
which pandas sorts string group keys. -/
def leb : List Char → List Char → Bool
  | [], _ => true
  | _ :: _, [] => false
  | a :: as, b :: bs =>
    if a.toNat < b.toNat then true
    else if b.toNat < a.toNat then false
    else leb as bs

/-- Code-point lexicographic comparison of strings. -/
def strLeb (a b : String) : Bool := leb a.toList b.toList

/-- The lexicographic order on strings as a proposition. -/
def strLe (a b : String) : Prop := strLeb a b = true

instance : DecidableRel strLe := fun a b => Bool.decEq (strLeb a b) true

/-- Group keys of `df.groupby('Industry Category')`: the distinct keys in
sorted (code-point lexicographic) order, pandas' default `sort=True`. -/
def groupKeys (df : DF) : List String :=
  List.insertionSort strLe (df.rows.map catOf).dedup

/-- The member rows of one group. -/
def groupRows (df : DF) (k : String) : List Row :=
  df.rows.filter fun r => catOf r == k

/-- Sum of a numeric column over a list of rows. -/
def sumCol (rs : List Row) (c : String) : ℚ :=
  (rs.map fun r => asNum (getCell r c)).sum

/-- Unweighted arithmetic mean of a numeric column over a list of rows.
On a pandas group the row list is never empty; the 0-guard only makes the
function total. -/
def meanCol (rs : List Row) (c : String) : ℚ :=
  safeDiv (sumCol rs c) (rs.length : ℚ)

/-- `df.groupby('Industry Category')['Total Workers'].sum()`: the series
of per-category summed Total Workers, indexed by sorted keys. -/
def industry_share (df : DF) : List (String × ℚ) :=
  (groupKeys df).map fun k => (k, sumCol (groupRows df k) "Total Workers")

/-- One category's Growth Score:
`Urban Ratio mean * 0.4 + Female Ratio mean * 0.6`. -/
def growthScore (df : DF) (k : String) : ℚ :=
  meanCol (groupRows df k) "Urban Ratio" * (2 / 5) +
  meanCol (groupRows df k) "Female Ratio" * (3 / 5)

/-- The `industry_stats['Growth Score']` series, indexed by sorted keys. -/
def industry_stats (df : DF) : List (String × ℚ) :=
  (groupKeys df).map fun k => (k, growthScore df k)

/-- Scan underlying `idxmax`: keep the first maximum seen, switch only on
a strictly greater value. -/
def idxmaxAux : String → ℚ → List (String × ℚ) → String
  | k, _, [] => k
  | k, v, p :: t => if v < p.2 then idxmaxAux p.1 p.2 t else idxmaxAux k v t

/-- pandas `Series.idxmax`: index label of the first maximal value;
raises (`none`) on an empty series. -/
def idxmax : List (String × ℚ) → Option String
  | [] => none
  | p :: t => some (idxmaxAux p.1 p.2 t)

/-- pandas `Series.max` on a non-empty series (0 on an empty one, where
the source never reaches it). -/
def maxVal : List (String × ℚ) → ℚ
  | [] => 0
  | p :: t => (t.map Prod.snd).foldl max p.2

/-- The five scalar insights of `generate_insights`. -/
structure Insights where
  top_industry : String
  top_share : ℚ
  female_percent : ℚ
  marginal_percent : ℚ
  growth_industry : String
deriving DecidableEq, Repr

/-- `generate_insights`: `none` embeds the `ValueError` that
`Series.idxmax` raises on the empty per-category series (the unguarded
empty-table case the spec flags). -/
def generate_insights (df : DF) : Option Insights :=
  match idxmax (industry_share df) with
  | none => none
  | some top =>
    match idxmax (industry_stats df) with
    | none => none
    | some g =>
      some ⟨top,
            safeDiv (maxVal (industry_share df))
              (((industry_share df).map Prod.snd).sum) * 100,
            safeDiv
              ((df.rows.map fun r =>
                 asNum (getCell r "Main_Workers_Total_Females") +
                 asNum (getCell r "Marginal_Workers_Total_Females")).sum)
              (sumCol df.rows "Total Workers") * 100,
            safeDiv (sumCol df.rows "Marginal_Workers_Total_Persons")
              (sumCol df.rows "Total Workers") * 100,
            g⟩

/-! Order properties of the lexicographic comparison, so that Mathlib's
`insertionSort` lemmas apply to `groupKeys`. -/

theorem leb_total : ∀ as bs : List Char, leb as bs = true ∨ leb bs as = true := by
  intro as
  induction as with
  | nil => intro bs; left; rfl
  | cons a as ih =>
    intro bs
    cases bs with
    | nil => right; rfl
    | cons b bs =>
      by_cases h1 : a.toNat < b.toNat
      · left; simp [leb, h1]
      · by_cases h2 : b.toNat < a.toNat
        · right; simp [leb, h2]
        · rcases ih bs with h | h
          · left; simp [leb, h1, h2, h]
          · right; simp [leb, h1, h2, h]

theorem leb_trans : ∀ as bs cs : List Char,
    leb as bs = true → leb bs cs = true → leb as cs = true := by
  intro as
  induction as with
  | nil => intro bs cs _ _; rfl
  | cons a as ih =>
    intro bs cs h1 h2
    cases bs with
    | nil => simp [leb] at h1
    | cons b bs =>
      cases cs with
      | nil => simp [leb] at h2
      | cons c cs =>
        simp only [leb] at h1 h2 ⊢
        split_ifs at h1 h2 ⊢ with hab hba hbc hcb hac hca
        all_goals first
          | rfl
          | omega
          | (exact ih bs cs h1 h2)

theorem char_toNat_inj {a b : Char} (h : a.toNat = b.toNat) : a = b := by
  apply Char.ext
  exact UInt32.ext h

theorem leb_antisymm : ∀ as bs : List Char,
    leb as bs = true → leb bs as = true → as = bs := by
  intro as
  induction as with
  | nil =>
    intro bs _ h2
    cases bs with
    | nil => rfl
    | cons b bs => simp [leb] at h2
  | cons a as ih =>
    intro bs h1 h2
    cases bs with
    | nil => simp [leb] at h1
    | cons b bs =>
      simp only [leb] at h1 h2
      split_ifs at h1 h2 with hab hba
      · omega
      · have hn : a.toNat = b.toNat := by omega
        have := ih bs h1 h2
        simp [char_toNat_inj hn, this]

instance : IsTotal String strLe := ⟨fun a b => leb_total a.toList b.toList⟩

instance : IsTrans String strLe :=
  ⟨fun a b c h1 h2 => leb_trans a.toList b.toList c.toList h1 h2⟩

instance : IsRefl String strLe :=
  ⟨fun a => by rcases leb_total a.toList a.toList with h | h <;> exact h⟩

theorem strLe_antisymm {a b : String} (h1 : strLe a b) (h2 : strLe b a) : a = b := by
  have := leb_antisymm a.toList b.toList h1 h2
  have hd : a.data = b.data := this
  exact congrArg String.mk hd

instance : IsAntisymm String strLe := ⟨fun _ _ h1 h2 => strLe_antisymm h1 h2⟩

/-! Reading and writing row cells. -/

theorem getCell_setCell_same (r : Row) (c : String) (v : Cell) :
    getCell (setCell r c v) c = v := by
  induction r with
  | nil => simp [setCell, getCell]
  | cons p t ih =>
    by_cases h : p.1 = c
    · simp [setCell, h, getCell]
    · simp [setCell, h, getCell, ih]

theorem getCell_setCell_diff (r : Row) (c d : String) (v : Cell) (h : c ≠ d) :
    getCell (setCell r c v) d = getCell r d := by
  induction r with
  | nil => simp [setCell, getCell, h]
  | cons p t ih =>
    by_cases hp : p.1 = c
    · simp [setCell, hp, getCell, h]
    · simp [setCell, hp, getCell, ih]

theorem getCell_coerceCols_not_mem (cs : List String) (r : Row) (c : String) (h : c ∉ cs) :
    getCell (coerceCols cs r) c = getCell r c := by
  induction cs generalizing r with
  | nil => rfl
  | cons d ds ih =>
    simp only [List.mem_cons, not_or] at h
    simp only [coerceCols]
    rw [ih _ h.2]
    exact getCell_setCell_diff r d c _ fun hdc => h.1 hdc.symm

theorem getCell_coerceCols_mem (cs : List String) (r : Row) (c : String)
    (hnd : cs.Nodup) (h : c ∈ cs) :
    getCell (coerceCols cs r) c = to_numeric (getCell r c) := by
  induction cs generalizing r with
  | nil => cases h
  | cons d ds ih =>
    simp only [coerceCols]
    rcases List.mem_cons.mp h with heq | hmem
    · subst heq
      rw [getCell_coerceCols_not_mem ds _ c (by exact (List.nodup_cons.mp hnd).1)]
      exact getCell_setCell_same r c _
    · have hdc : d ≠ c := fun hdc => (List.nodup_cons.mp hnd).1 (hdc ▸ hmem)
      rw [ih _ (List.nodup_cons.mp hnd).2 hmem]
      rw [getCell_setCell_diff r d c _ hdc]

/-! Value-level views of the transformed row. -/

/-- The coerced numeric value of a cell of the raw row. -/
def coerced (r : Row) (c : String) : ℚ := asNum (to_numeric (getCell r c))

/-- The row's derived Total Workers value. -/
def tw_val (r : Row) : ℚ :=
  coerced r "Main_Workers_Total_Persons" + coerced r "Marginal_Workers_Total_Persons"

/-- The row's total female count (main plus marginal). -/
def fem_sum (r : Row) : ℚ :=
  coerced r "Main_Workers_Total_Females" + coerced r "Marginal_Workers_Total_Females"

/-- The row's total urban count (main plus marginal). -/
def urb_sum (r : Row) : ℚ :=
  coerced r "Main_Workers_Urban_Persons" + coerced r "Marginal_Workers_Urban_Persons"

/-- Specialisation of the coercion lemma to the untouched NIC column. -/
theorem coerce_nic (r : Row) :
    getCell (coerceCols numeric_cols r) "NIC_Name" = getCell r "NIC_Name" :=
  getCell_coerceCols_not_mem _ _ _ (by decide)

/-- Specialisation of the coercion lemma to the ten numeric columns. -/
theorem coerce_mem (r : Row) (c : String) (h : c ∈ numeric_cols) :
    getCell (coerceCols numeric_cols r) c = to_numeric (getCell r c) :=
  getCell_coerceCols_mem _ _ _ (by decide) h

theorem transformRow_tw (r : Row) :
    getCell (transformRow r) "Total Workers" = Cell.num (tw_val r) := by
  simp [transformRow, getCell_setCell_diff, getCell_setCell_same]
  rw [coerce_mem r _ (by decide), coerce_mem r _ (by decide)]
  rfl

theorem transformRow_fr (r : Row) :
    getCell (transformRow r) "Female Ratio" =
      Cell.num (safeDiv (fem_sum r) (tw_val r)) := by
  simp [transformRow, getCell_setCell_diff, getCell_setCell_same]
  rw [coerce_mem r _ (by decide), coerce_mem r _ (by decide),
    coerce_mem r _ (by decide), coerce_mem r _ (by decide)]
  rfl

theorem transformRow_ur (r : Row) :
    getCell (transformRow r) "Urban Ratio" =
      Cell.num (safeDiv (urb_sum r) (tw_val r)) := by
  simp [transformRow, getCell_setCell_diff, getCell_setCell_same]
  rw [coerce_mem r _ (by decide), coerce_mem r _ (by decide),
    coerce_mem r _ (by decide), coerce_mem r _ (by decide)]
  rfl

theorem transformRow_cat (r : Row) :
    getCell (transformRow r) "Industry Category" =
      Cell.text (classify_industry (getCell r "NIC_Name")) := by
  simp [transformRow, getCell_setCell_diff, getCell_setCell_same, coerce_nic]

theorem transformRow_numeric (r : Row) (c : String) (h : c ∈ numeric_cols) :
    getCell (transformRow r) c = to_numeric (getCell r c) := by
  have h1 : "Industry Category" ≠ c := fun he => absurd (he ▸ h) (by decide)
  have h2 : "Urban Ratio" ≠ c := fun he => absurd (he ▸ h) (by decide)
  have h3 : "Female Ratio" ≠ c := fun he => absurd (he ▸ h) (by decide)
  have h4 : "Total Workers" ≠ c := fun he => absurd (he ▸ h) (by decide)
  simp only [transformRow]
  rw [getCell_setCell_diff _ _ _ _ h1, getCell_setCell_diff _ _ _ _ h2,
    getCell_setCell_diff _ _ _ _ h3, getCell_setCell_diff _ _ _ _ h4]
  exact coerce_mem r c h

theorem transformRow_other (r : Row) (c : String)
    (h1 : c ∉ numeric_cols) (h2 : c ∉ derived_cols) :
    getCell (transformRow r) c = getCell r c := by
  have d1 : "Industry Category" ≠ c := fun he => absurd (he ▸ (by decide : "Industry Category" ∈ derived_cols)) h2
  have d2 : "Urban Ratio" ≠ c := fun he => absurd (he ▸ (by decide : "Urban Ratio" ∈ derived_cols)) h2
  have d3 : "Female Ratio" ≠ c := fun he => absurd (he ▸ (by decide : "Female Ratio" ∈ derived_cols)) h2
  have d4 : "Total Workers" ≠ c := fun he => absurd (he ▸ (by decide : "Total Workers" ∈ derived_cols)) h2
  simp only [transformRow]
  rw [getCell_setCell_diff _ _ _ _ d1, getCell_setCell_diff _ _ _ _ d2,
    getCell_setCell_diff _ _ _ _ d3, getCell_setCell_diff _ _ _ _ d4]
  exact getCell_coerceCols_not_mem _ _ _ h1

/-! Properties of the idxmax scan and the series maximum. -/

theorem strLe_refl (a : String) : strLe a a := by
  rcases leb_total a.toList a.toList with h | h <;> exact h

theorem le_foldl_max (a : ℚ) (xs : List ℚ) : a ≤ xs.foldl max a := by
  induction xs generalizing a with
  | nil => exact le_refl a
  | cons x xs ih => exact le_trans (le_max_left a x) (ih (max a x))

theorem mem_le_foldl_max (xs : List ℚ) (a x : ℚ) (h : x ∈ xs) : x ≤ xs.foldl max a := by
  induction xs generalizing a with
  | nil => cases h
  | cons y ys ih =>
    rcases List.mem_cons.mp h with heq | hm
    · subst heq
      exact le_trans (le_max_right a x) (le_foldl_max _ _)
    · exact ih (max a y) hm

/-- Running maximum of the values of a series suffix, from a seed value. -/
def valsMax (v : ℚ) (l : List (String × ℚ)) : ℚ := (l.map Prod.snd).foldl max v

theorem valsMax_cons (v : ℚ) (p : String × ℚ) (t : List (String × ℚ)) :
    valsMax v (p :: t) = valsMax (max v p.2) t := rfl

theorem idxmaxAux_mem : ∀ (l : List (String × ℚ)) (k : String) (v : ℚ),
    (idxmaxAux k v l, valsMax v l) ∈ (k, v) :: l := by
  intro l
  induction l with
  | nil => intro k v; simp [idxmaxAux, valsMax]
  | cons p t ih =>
    intro k v
    by_cases h : v < p.2
    · rw [show idxmaxAux k v (p :: t) = idxmaxAux p.1 p.2 t from by simp [idxmaxAux, h]]
      rw [valsMax_cons, max_eq_right (le_of_lt h)]
      have hmem := ih p.1 p.2
      rw [List.mem_cons] at hmem
      rcases hmem with he | hm2
      · rw [List.mem_cons]; right
        rw [List.mem_cons]; left
        exact he
      · rw [List.mem_cons]; right
        rw [List.mem_cons]; right
        exact hm2
    · rw [show idxmaxAux k v (p :: t) = idxmaxAux k v t from by simp [idxmaxAux, h]]
      rw [valsMax_cons, max_eq_left (not_lt.mp h)]
      have hmem := ih k v
      rw [List.mem_cons] at hmem
      rcases hmem with he | hm2
      · rw [List.mem_cons]; left; exact he
      · rw [List.mem_cons]; right
        rw [List.mem_cons]; right
        exact hm2

theorem idxmaxAux_le (l : List (String × ℚ)) (k : String) (v : ℚ) (p : String × ℚ)
    (hp : p ∈ (k, v) :: l) : p.2 ≤ valsMax v l := by
  rw [List.mem_cons] at hp
  rcases hp with he | hm
  · rw [he]; exact le_foldl_max v _
  · exact mem_le_foldl_max (l.map Prod.snd) v p.2 (List.mem_map_of_mem Prod.snd hm)

theorem idxmaxAux_stay : ∀ (l : List (String × ℚ)) (k : String) (v : ℚ),
    (∀ p ∈ l, p.2 ≤ v) → idxmaxAux k v l = k := by
  intro l
  induction l with
  | nil => intro k v _; rfl
  | cons p t ih =>
    intro k v h
    have hnp : ¬ v < p.2 := not_lt.mpr (h p (List.mem_cons_self p t))
    rw [show idxmaxAux k v (p :: t) = idxmaxAux k v t from by simp [idxmaxAux, hnp]]
    exact ih k v fun q hq => h q (List.mem_cons.mpr (Or.inr hq))

theorem idxmaxAux_first : ∀ (l : List (String × ℚ)) (k : String) (v : ℚ),
    List.Sorted strLe (k :: l.map Prod.fst) →
    ∀ p ∈ (k, v) :: l, p.2 = valsMax v l → strLe (idxmaxAux k v l) p.1 := by
  intro l
  induction l with
  | nil =>
    intro k v _ p hp _
    rw [List.mem_cons] at hp
    rcases hp with he | hm
    · rw [he]; exact strLe_refl k
    · cases hm
  | cons q t ih =>
    intro k v hs p hp hmax
    rcases List.mem_cons.mp hp with he | hp2
    · subst he
      by_cases hlt : v < q.2
      · exfalso
        have h1 : q.2 ≤ valsMax v (q :: t) :=
          idxmaxAux_le (q :: t) k v q (List.mem_cons.mpr (Or.inr (List.mem_cons_self q t)))
        rw [← hmax] at h1
        exact absurd h1 (not_le.mpr hlt)
      · have hstay : ∀ w ∈ t, w.2 ≤ v := by
          intro w hw
          have hle : w.2 ≤ valsMax v (q :: t) :=
            idxmaxAux_le (q :: t) k v w
              (List.mem_cons.mpr (Or.inr (List.mem_cons.mpr (Or.inr hw))))
          rw [← hmax] at hle
          exact hle
        rw [show idxmaxAux k v (q :: t) = idxmaxAux k v t from by simp [idxmaxAux, hlt]]
        rw [idxmaxAux_stay t k v hstay]
        exact strLe_refl k
    · by_cases hlt : v < q.2
      · rw [show idxmaxAux k v (q :: t) = idxmaxAux q.1 q.2 t from by simp [idxmaxAux, hlt]]
        have hs2 : List.Sorted strLe (q.1 :: t.map Prod.fst) := (List.pairwise_cons.mp hs).2
        have hmax2 : p.2 = valsMax q.2 t := by
          rw [valsMax_cons, max_eq_right (le_of_lt hlt)] at hmax
          exact hmax
        exact ih q.1 q.2 hs2 p hp2 hmax2
      · have hqv : q.2 ≤ v := not_lt.mp hlt
        have hmv : max v q.2 = v := max_eq_left hqv
        rw [show idxmaxAux k v (q :: t) = idxmaxAux k v t from by simp [idxmaxAux, hlt]]
        rcases List.mem_cons.mp hp2 with heq | hpt
        · have hq2 : q.2 = valsMax v t := by
            rw [heq] at hmax
            rw [valsMax_cons, hmv] at hmax
            exact hmax
          have hveq : v = valsMax v t :=
            le_antisymm (le_foldl_max v _) (hq2 ▸ hqv)
          have hstay : ∀ w ∈ t, w.2 ≤ v := by
            intro w hw
            have hle := mem_le_foldl_max (t.map Prod.snd) v w.2 (List.mem_map_of_mem Prod.snd hw)
            exact le_trans hle (le_of_eq hveq.symm)
          rw [idxmaxAux_stay t k v hstay]
          have hk := (List.pairwise_cons.mp hs).1 q.1 (List.mem_cons_self q.1 _)
          rw [heq]
          exact hk
        · have hs2 : List.Sorted strLe (k :: t.map Prod.fst) := by
            apply List.Pairwise.sublist _ hs
            exact List.Sublist.cons₂ k (List.sublist_cons_self q.1 (t.map Prod.fst))
          have hmax2 : p.2 = valsMax v t := by
            rw [valsMax_cons, hmv] at hmax
            exact hmax
          exact ih k v hs2 p (List.mem_cons.mpr (Or.inr hpt)) hmax2

theorem idxmax_mem_max (l : List (String × ℚ)) (k : String) (h : idxmax l = some k) :
    (k, maxVal l) ∈ l := by
  cases l with
  | nil => cases h
  | cons p t =>
    have hk : k = idxmaxAux p.1 p.2 t := (Option.some.inj h).symm
    subst hk
    exact idxmaxAux_mem t p.1 p.2

theorem series_le_max (l : List (String × ℚ)) (p : String × ℚ) (hp : p ∈ l) :
    p.2 ≤ maxVal l := by
  cases l with
  | nil => cases hp
  | cons q t => exact idxmaxAux_le t q.1 q.2 p hp

theorem idxmax_lex_first (l : List (String × ℚ)) (k : String)
    (hs : List.Sorted strLe (l.map Prod.fst)) (h : idxmax l = some k) :
    ∀ p ∈ l, p.2 = maxVal l → strLe k p.1 := by
  cases l with
  | nil => cases h
  | cons q t =>
    have hk : k = idxmaxAux q.1 q.2 t := (Option.some.inj h).symm
    subst hk
    intro p hp hpm
    exact idxmaxAux_first t q.1 q.2 hs p hp hpm

/-! Shape of the aggregated series. -/

theorem groupKeys_sorted (df : DF) : List.Sorted strLe (groupKeys df) :=
  List.sorted_insertionSort strLe _

theorem industry_share_keys (df : DF) :
    (industry_share df).map Prod.fst = groupKeys df := by
  unfold industry_share
  rw [List.map_map]
  exact (List.map_congr_left fun a _ => rfl).trans (List.map_id _)

theorem industry_stats_keys (df : DF) :
    (industry_stats df).map Prod.fst = groupKeys df := by
  unfold industry_stats
  rw [List.map_map]
  exact (List.map_congr_left fun a _ => rfl).trans (List.map_id _)

theorem industry_share_mem_val (df : DF) (p : String × ℚ) (h : p ∈ industry_share df) :
    p.2 = sumCol (groupRows df p.1) "Total Workers" := by
  rcases List.mem_map.mp h with ⟨k, hk, rfl⟩
  rfl

theorem industry_stats_mem_val (df : DF) (p : String × ℚ) (h : p ∈ industry_stats df) :
    p.2 = growthScore df p.1 := by
  rcases List.mem_map.mp h with ⟨k, hk, rfl⟩
  rfl

/-! Invariance of the aggregates under row permutation. -/

theorem sumCol_perm {rs rs' : List Row} (h : rs.Perm rs') (c : String) :
    sumCol rs c = sumCol rs' c :=
  List.Perm.sum_eq (h.map _)

theorem meanCol_perm {rs rs' : List Row} (h : rs.Perm rs') (c : String) :
    meanCol rs c = meanCol rs' c := by
  unfold meanCol
  rw [sumCol_perm h c, h.length_eq]

theorem groupRows_perm {rows rows' : List Row} (h : rows.Perm rows')
    (cols cols' : List String) (k : String) :
    (groupRows ⟨cols, rows⟩ k).Perm (groupRows ⟨cols', rows'⟩ k) :=
  h.filter _

theorem groupKeys_perm_eq {rows rows' : List Row} (h : rows.Perm rows')
    (cols cols' : List String) :
    groupKeys ⟨cols, rows⟩ = groupKeys ⟨cols', rows'⟩ := by
  apply List.eq_of_perm_of_sorted _ (List.sorted_insertionSort _ _) (List.sorted_insertionSort _ _)
  exact ((List.perm_insertionSort _ _).trans ((h.map catOf).dedup)).trans
    (List.perm_insertionSort _ _).symm

theorem industry_share_perm_eq {rows rows' : List Row} (h : rows.Perm rows')
    (cols cols' : List String) :
    industry_share ⟨cols, rows⟩ = industry_share ⟨cols', rows'⟩ := by
  unfold industry_share
  rw [groupKeys_perm_eq h cols cols']
  apply List.map_congr_left
  intro k _
  rw [sumCol_perm (groupRows_perm h cols cols' k)]

theorem growthScore_perm_eq {rows rows' : List Row} (h : rows.Perm rows')
    (cols cols' : List String) (k : String) :
    growthScore ⟨cols, rows⟩ k = growthScore ⟨cols', rows'⟩ k := by
  unfold growthScore
  rw [meanCol_perm (groupRows_perm h cols cols' k), meanCol_perm (groupRows_perm h cols cols' k)]

theorem industry_stats_perm_eq {rows rows' : List Row} (h : rows.Perm rows')
    (cols cols' : List String) :
    industry_stats ⟨cols, rows⟩ = industry_stats ⟨cols', rows'⟩ := by
  unfold industry_stats
  rw [groupKeys_perm_eq h cols cols']
  apply List.map_congr_left
  intro k _
  rw [growthScore_perm_eq h cols cols' k]

theorem generate_insights_perm {rows rows' : List Row} (h : rows.Perm rows')
    (cols cols' : List String) :
    generate_insights ⟨cols, rows⟩ = generate_insights ⟨cols', rows'⟩ := by
  have h1 := industry_share_perm_eq h cols cols'
  have h2 := industry_stats_perm_eq h cols cols'
  have h3 : sumCol rows "Total Workers" = sumCol rows' "Total Workers" := sumCol_perm h _
  have h4 : sumCol rows "Marginal_Workers_Total_Persons" =
      sumCol rows' "Marginal_Workers_Total_Persons" := sumCol_perm h _
  have h5 : (rows.map fun r =>
        asNum (getCell r "Main_Workers_Total_Females") +
        asNum (getCell r "Marginal_Workers_Total_Females")).sum =
      (rows'.map fun r =>
        asNum (getCell r "Main_Workers_Total_Females") +
        asNum (getCell r "Marginal_Workers_Total_Females")).sum :=
    List.Perm.sum_eq (h.map _)
  simp only [generate_insights, h1, h2, h3, h4, h5]

/-- Destructuring of a successful `generate_insights` run. -/
theorem generate_insights_some (df : DF) (i : Insights) (h : generate_insights df = some i) :
    idxmax (industry_share df) = some i.top_industry ∧
    idxmax (industry_stats df) = some i.growth_industry ∧
    i.top_share = safeDiv (maxVal (industry_share df))
      (((industry_share df).map Prod.snd).sum) * 100 := by
  unfold generate_insights at h
  cases hx : idxmax (industry_share df) with
  | none => rw [hx] at h; simp at h
  | some top =>
    rw [hx] at h
    cases hy : idxmax (industry_stats df) with
    | none => rw [hy] at h; simp at h
    | some g =>
      rw [hy] at h
      simp only at h
      obtain rfl := Option.some.inj h
      exact ⟨rfl, rfl, rfl⟩

theorem safeDiv_nonneg {a b : ℚ} (ha : 0 ≤ a) (hb : 0 ≤ b) : 0 ≤ safeDiv a b := by
  unfold safeDiv
  split_ifs with h
  · exact le_refl 0
  · exact div_nonneg ha hb

/-! Concrete tables used in the per-claim instances. -/

/-- A full raw row: NIC name, Main_Workers_Total_Persons, and
Main_Workers_Total_Females given, every other numeric cell 0. -/
def mkRow (nic : String) (mwtp mf : ℚ) : Row :=
  [("NIC_Name", Cell.text nic),
   ("Main_Workers_Total_Persons", Cell.num mwtp),
   ("Marginal_Workers_Total_Persons", Cell.num 0),
   ("Main_Workers_Total_Females", Cell.num mf),
   ("Marginal_Workers_Total_Females", Cell.num 0),
   ("Main_Workers_Urban_Persons", Cell.num 0),
   ("Marginal_Workers_Urban_Persons", Cell.num 0),
   ("Main_Workers_Rural_Persons", Cell.num 0),
   ("Marginal_Workers_Rural_Persons", Cell.num 0),
   ("Main_Workers_Total_Males", Cell.num 0),
   ("Marginal_Workers_Total_Males", Cell.num 0)]

/-- The spec's 3-row example table, raw. -/
def dfExRaw : DF :=
  ⟨required_cols,
   [mkRow "Crop Farming" 100 0, mkRow "Retail Shop Co" 50 0,
    mkRow "Steel Manufacturing Ltd" 200 0]⟩

/-- The spec's 3-row example after `process_data`. -/
def dfEx : DF := ((process_data dfExRaw).toOption).getD ⟨[], []⟩

/-- The insights of the 3-row example. -/
def iEx : Insights := ⟨"Manufacturing", 400 / 7, 0, 0, "Agriculture"⟩

/-- A validated table with zero rows. -/
def dfEmptyRaw : DF := ⟨required_cols, []⟩

/-- A one-row table whose every count is zero (zero grand total). -/
def dfZeroRaw : DF := ⟨required_cols, [mkRow "x" 0 0]⟩

/-- `dfZeroRaw` after `process_data`. -/
def dfZero : DF := ((process_data dfZeroRaw).toOption).getD ⟨[], []⟩

/-- A header missing both `NIC_Name` and `Main_Workers_Total_Males`. -/
def dfMissRaw : DF :=
  ⟨["Main_Workers_Total_Persons", "Marginal_Workers_Total_Persons",
    "Main_Workers_Total_Females", "Marginal_Workers_Total_Females",
    "Main_Workers_Urban_Persons", "Marginal_Workers_Urban_Persons",
    "Main_Workers_Rural_Persons", "Marginal_Workers_Rural_Persons",
    "Marginal_Workers_Total_Males"], []⟩

/-! The claims. -/

/-- C1: industry classification is a deterministic, total, case-insensitive
substring match on NIC_Name in the fixed priority order Agriculture,
Manufacturing, Retail and Trade, Poultry and Livestock, Mining, Other:
every row gets exactly one of the six labels, a name containing both
farm and factory is Agriculture, and an absent or non-text NIC_Name is
Other. -/
theorem C1_classification_rules :
    (∀ cell : Cell, classify_industry cell ∈ categories) ∧
    (∀ s t : String, lowerName s = lowerName t →
      classify_industry (Cell.text s) = classify_industry (Cell.text t)) ∧
    (∀ s : String, containsSub "farm".toList (lowerName s) = true →
      containsSub "factory".toList (lowerName s) = true →
      classify_industry (Cell.text s) = "Agriculture") ∧
    (∀ q : ℚ, classify_industry (Cell.num q) = "Other") ∧
    classify_industry Cell.na = "Other" := by
  refine ⟨?_, ?_, ?_, fun q => rfl, rfl⟩
  · intro cell
    cases cell with
    | num q => simp [classify_industry, categories]
    | na => simp [classify_industry, categories]
    | text s =>
      simp only [classify_industry, classifyName]
      split_ifs <;> simp [categories]
  · intro s t h
    simp only [classify_industry]
    rw [h]
  · intro s hfarm hfact
    have hc : containsAny (lowerName s) ["crop", "animal", "farm", "agriculture"] = true := by
      simp only [containsAny, List.any_cons, List.any_nil, Bool.or_eq_true]
      exact Or.inr (Or.inr (Or.inl hfarm))
    simp [classify_industry, classifyName, hc]

/-- Witness for C1 at a concrete mixed-case name containing both farm and
factory. -/
theorem C1_witness :
    classify_industry (Cell.text "Mega FARM Factory") = "Agriculture" :=
  C1_classification_rules.2.2.1 "Mega FARM Factory" (by decide) (by decide)

/-- C2: the spec requires a NoDataError on empty or zero-total tables; the
source instead reaches idxmax on an empty series (a ValueError, embedded
as none) on the empty table, and on a zero-total table returns zero-filled
insights as if valid. -/
theorem C2_empty_table_unguarded :
    process_data dfEmptyRaw = Except.ok ⟨required_cols ++ derived_cols, []⟩ ∧
    generate_insights ⟨required_cols ++ derived_cols, []⟩ = none ∧
    process_data dfZeroRaw = Except.ok dfZero ∧
    sumCol dfZero.rows "Total Workers" = 0 ∧
    generate_insights dfZero = some ⟨"Other", 0, 0, 0, "Other"⟩ := by
  decide

/-- C3 counterexample: dropping NIC_Name and Main_Workers_Total_Males, the
code reports NIC_Name first (the order of required_cols in the source),
not the numeric-columns-first order the claim states. -/
theorem C3_counterexample :
    missingCols dfMissRaw = ["NIC_Name", "Main_Workers_Total_Males"] ∧
    process_data dfMissRaw = Except.error ["NIC_Name", "Main_Workers_Total_Males"] ∧
    (["NIC_Name", "Main_Workers_Total_Males"] : List String) ≠
      ["Main_Workers_Total_Males", "NIC_Name"] := by
  decide

/-- C3 amended: the validator reports exactly the required columns absent
from the header, in the fixed source order with NIC_Name first and then
the ten numeric columns; a non-empty missing list yields the error (empty
table) with exactly that list, and a complete header passes the table to
the transformer. -/
theorem C3_validator_contract (df : DF) :
    (∀ c : String, c ∈ missingCols df ↔ (c ∈ required_cols ∧ c ∉ df.cols)) ∧
    (missingCols df).Sublist required_cols ∧
    required_cols =
      ["NIC_Name", "Main_Workers_Total_Persons", "Marginal_Workers_Total_Persons",
       "Main_Workers_Total_Females", "Marginal_Workers_Total_Females",
       "Main_Workers_Urban_Persons", "Marginal_Workers_Urban_Persons",
       "Main_Workers_Rural_Persons", "Marginal_Workers_Rural_Persons",
       "Main_Workers_Total_Males", "Marginal_Workers_Total_Males"] ∧
    (missingCols df = [] → process_data df = Except.ok (transform df)) ∧
    (missingCols df ≠ [] → process_data df = Except.error (missingCols df)) := by
  refine ⟨?_, List.filter_sublist _, rfl, ?_, ?_⟩
  · intro c
    simp [missingCols, List.mem_filter]
  · intro h
    simp [process_data, h]
  · intro h
    simp [process_data, h]

/-- Witness for C3 at the concrete header missing two columns. -/
theorem C3_witness :
    process_data dfMissRaw = Except.error (missingCols dfMissRaw) :=
  (C3_validator_contract dfMissRaw).2.2.2.2 (by decide)

/-- C4: on every transformed row, Female Ratio and Urban Ratio are the
guarded quotients (finite rationals by construction), are nonnegative when
the coerced counts are nonnegative, are 0 when Total Workers is 0, and a
zero denominator (the only source of a non-finite quotient) always yields
0 instead of propagating. -/
theorem C4_ratio_invariants (r : Row)
    (h : ∀ c ∈ numeric_cols, 0 ≤ coerced r c) :
    getCell (transformRow r) "Female Ratio" = Cell.num (safeDiv (fem_sum r) (tw_val r)) ∧
    getCell (transformRow r) "Urban Ratio" = Cell.num (safeDiv (urb_sum r) (tw_val r)) ∧
    0 ≤ safeDiv (fem_sum r) (tw_val r) ∧
    0 ≤ safeDiv (urb_sum r) (tw_val r) ∧
    (tw_val r = 0 →
      safeDiv (fem_sum r) (tw_val r) = 0 ∧ safeDiv (urb_sum r) (tw_val r) = 0) ∧
    (∀ a : ℚ, safeDiv a 0 = 0) := by
  have hf : 0 ≤ fem_sum r :=
    add_nonneg (h _ (by decide)) (h _ (by decide))
  have hu : 0 ≤ urb_sum r :=
    add_nonneg (h _ (by decide)) (h _ (by decide))
  have ht : 0 ≤ tw_val r :=
    add_nonneg (h _ (by decide)) (h _ (by decide))
  refine ⟨transformRow_fr r, transformRow_ur r, safeDiv_nonneg hf ht, safeDiv_nonneg hu ht,
    ?_, fun a => by simp [safeDiv]⟩
  intro h0
  constructor <;> simp [safeDiv, h0]

/-- Witness for C4 at a concrete row of the example table. -/
theorem C4_witness :
    0 ≤ safeDiv (fem_sum (mkRow "Crop Farming" 100 0)) (tw_val (mkRow "Crop Farming" 100 0)) :=
  (C4_ratio_invariants (mkRow "Crop Farming" 100 0) (by decide)).2.2.1

/-- A validated row with a negative Main_Workers_Total_Persons count. -/
def negRow : Row := mkRow "Farm" (-5) 0

/-- The one-row table around `negRow`. -/
def dfNegRaw : DF := ⟨required_cols, [negRow]⟩

/-- C5 counterexample: a validated table with a negative numeric cell
passes coercion unchanged and produces a negative Total Workers, so the
unconditional Total Workers at least 0 part of the claim fails. -/
theorem C5_counterexample :
    missingCols dfNegRaw = [] ∧
    process_data dfNegRaw = Except.ok (transform dfNegRaw) ∧
    getCell (transformRow negRow) "Total Workers" = Cell.num (-5) ∧
    ¬ (0 ≤ (-5 : ℚ)) := by
  decide

/-- C5 amended: coercion of the ten numeric columns is total (never
raises); every cell that fails numeric parsing, and every missing cell,
becomes 0; Total Workers equals the sum of the two coerced total-persons
counts; and it is at least 0 whenever those coerced counts are at least 0
(the source does not force this for negative numeric input). -/
theorem C5_coercion_and_total (r : Row) (c : String) (hc : c ∈ numeric_cols)
    (s : String) (hs : parseQ s = none) :
    to_numeric (Cell.text s) = Cell.num 0 ∧
    to_numeric Cell.na = Cell.num 0 ∧
    getCell (transformRow r) c = to_numeric (getCell r c) ∧
    getCell (transformRow r) "Total Workers" = Cell.num (tw_val r) ∧
    tw_val r = coerced r "Main_Workers_Total_Persons" +
      coerced r "Marginal_Workers_Total_Persons" ∧
    (0 ≤ coerced r "Main_Workers_Total_Persons" →
      0 ≤ coerced r "Marginal_Workers_Total_Persons" → 0 ≤ tw_val r) := by
  refine ⟨by simp [to_numeric, hs], rfl, transformRow_numeric r c hc, transformRow_tw r,
    rfl, fun h1 h2 => add_nonneg h1 h2⟩

/-- Witness for C5 on a garbage text cell. -/
theorem C5_witness :
    to_numeric (Cell.text "garbage") = Cell.num 0 :=
  (C5_coercion_and_total (mkRow "Farm" 1 0) "Main_Workers_Total_Persons" (by decide)
    "garbage" (by decide)).1

/-- C6: top_industry carries the maximum per-category Total Workers sum,
top_share is that sum over the grand total times 100, and on the spec's
3-row example the pipeline yields Manufacturing with share 400/7, which
is 57.1 percent up to a tenth of a point. -/
theorem C6_top_industry_share (df : DF) (i : Insights)
    (h : generate_insights df = some i) :
    (∀ p ∈ industry_share df, p.2 = sumCol (groupRows df p.1) "Total Workers") ∧
    ((i.top_industry, maxVal (industry_share df)) ∈ industry_share df) ∧
    (∀ p ∈ industry_share df, p.2 ≤ maxVal (industry_share df)) ∧
    i.top_share = safeDiv (maxVal (industry_share df))
      (((industry_share df).map Prod.snd).sum) * 100 ∧
    (process_data dfExRaw = Except.ok dfEx ∧
     dfEx.rows.map catOf = ["Agriculture", "Retail & Trade", "Manufacturing"] ∧
     generate_insights dfEx = some iEx ∧
     iEx.top_industry = "Manufacturing" ∧
     iEx.top_share = 400 / 7 ∧
     |iEx.top_share - 571 / 10| < 1 / 10) := by
  have hs := generate_insights_some df i h
  refine ⟨fun p hp => industry_share_mem_val df p hp, idxmax_mem_max _ _ hs.1,
    fun p hp => series_le_max _ p hp, hs.2.2,
    by decide, by decide, by decide, rfl, rfl, by decide⟩

/-- Witness for C6 at the 3-row example. -/
theorem C6_witness :
    iEx.top_share = safeDiv (maxVal (industry_share dfEx))
      (((industry_share dfEx).map Prod.snd).sum) * 100 :=
  (C6_top_industry_share dfEx iEx (by decide)).2.2.2.1

/-- The two-row table giving tied growth scores: Mining appears first in
the data, Agriculture first lexicographically. -/
def dfTieRaw : DF := ⟨required_cols, [mkRow "Coal Mine" 0 0, mkRow "Farm" 0 0]⟩

/-- `dfTieRaw` after `process_data`. -/
def dfTie : DF := ((process_data dfTieRaw).toOption).getD ⟨[], []⟩

/-- C7 counterexample: with Mining encountered first and the two Growth
Scores tied, the code returns Agriculture (the lexicographically first
group key of the sorted groupby index), not the first-encountered
category the claim's tie-break predicts. -/
theorem C7_counterexample :
    process_data dfTieRaw = Except.ok dfTie ∧
    dfTie.rows.map catOf = ["Mining", "Agriculture"] ∧
    growthScore dfTie "Mining" = growthScore dfTie "Agriculture" ∧
    (generate_insights dfTie).map Insights.growth_industry = some "Agriculture" ∧
    "Agriculture" ≠ "Mining" := by
  decide

/-- C7 amended: each category's Growth Score is 0.4 times the unweighted
mean Urban Ratio plus 0.6 times the unweighted mean Female Ratio over the
category's member rows, and growth_industry attains the maximum score; a
tie is broken by the sorted group-key order, so the lexicographically
first tied category wins, not the first-encountered one. -/
theorem C7_growth_score_argmax (df : DF) (i : Insights)
    (h : generate_insights df = some i) :
    (∀ p ∈ industry_stats df,
      p.2 = meanCol (groupRows df p.1) "Urban Ratio" * (2 / 5) +
            meanCol (groupRows df p.1) "Female Ratio" * (3 / 5)) ∧
    ((i.growth_industry, maxVal (industry_stats df)) ∈ industry_stats df) ∧
    (∀ p ∈ industry_stats df, p.2 ≤ maxVal (industry_stats df)) ∧
    (∀ p ∈ industry_stats df,
      p.2 = maxVal (industry_stats df) → strLe i.growth_industry p.1) := by
  have hs := generate_insights_some df i h
  refine ⟨fun p hp => industry_stats_mem_val df p hp, idxmax_mem_max _ _ hs.2.1,
    fun p hp => series_le_max _ p hp, ?_⟩
  apply idxmax_lex_first _ _ ?_ hs.2.1
  rw [industry_stats_keys]
  exact groupKeys_sorted df

/-- The insights of the tied two-row table. -/
def iTie : Insights := ⟨"Agriculture", 0, 0, 0, "Agriculture"⟩

/-- Witness for C7 at the tied table. -/
theorem C7_witness :
    (iTie.growth_industry, maxVal (industry_stats dfTie)) ∈ industry_stats dfTie :=
  (C7_growth_score_argmax dfTie iTie (by decide)).2.1

/-- A processed two-row table with one Agriculture group whose Female
Ratios are 1 and 0 (group mean one half). -/
def dfDupBase : DF :=
  ((process_data ⟨required_cols, [mkRow "farm one" 1 1, mkRow "farm two" 1 0]⟩).toOption).getD
    ⟨[], []⟩

/-- The same table with a duplicate of the first row appended (group mean
two thirds). -/
def dfDupMore : DF :=
  ((process_data
      ⟨required_cols,
       [mkRow "farm one" 1 1, mkRow "farm two" 1 0, mkRow "farm one" 1 1]⟩).toOption).getD
    ⟨[], []⟩

/-- C8: per-group Total Workers sums and per-group unweighted Female and
Urban Ratio means are invariant under any permutation of the rows, and
appending a duplicate row can change a group mean, because the mean is
the unweighted arithmetic mean over member rows, not weighted by Total
Workers. -/
theorem C8_aggregation_invariance (cols cols' : List String) (rows rows' : List Row)
    (h : rows.Perm rows') (k : String) :
    sumCol (groupRows ⟨cols, rows⟩ k) "Total Workers" =
      sumCol (groupRows ⟨cols', rows'⟩ k) "Total Workers" ∧
    meanCol (groupRows ⟨cols, rows⟩ k) "Female Ratio" =
      meanCol (groupRows ⟨cols', rows'⟩ k) "Female Ratio" ∧
    meanCol (groupRows ⟨cols, rows⟩ k) "Urban Ratio" =
      meanCol (groupRows ⟨cols', rows'⟩ k) "Urban Ratio" ∧
    meanCol (groupRows dfDupBase "Agriculture") "Female Ratio" = 1 / 2 ∧
    meanCol (groupRows dfDupMore "Agriculture") "Female Ratio" = 2 / 3 ∧
    meanCol (groupRows dfDupMore "Agriculture") "Female Ratio" ≠
      meanCol (groupRows dfDupBase "Agriculture") "Female Ratio" := by
  refine ⟨sumCol_perm (groupRows_perm h cols cols' k) _,
    meanCol_perm (groupRows_perm h cols cols' k) _,
    meanCol_perm (groupRows_perm h cols cols' k) _, by decide, by decide, by decide⟩

/-- Witness for C8 at a concrete reversal of the example rows. -/
theorem C8_witness :
    sumCol (groupRows ⟨required_cols, dfEx.rows⟩ "Agriculture") "Total Workers" =
      sumCol (groupRows ⟨[], dfEx.rows.reverse⟩ "Agriculture") "Total Workers" :=
  (C8_aggregation_invariance required_cols [] dfEx.rows dfEx.rows.reverse
    (List.reverse_perm dfEx.rows).symm "Agriculture").1

/-- C9: when categories tie for the maximum (summed Total Workers or
Growth Score), the returned category is the lexicographically first among
the tied maxima, because group keys are sorted before the maximum is
taken, and the result is independent of the rows' original order. -/
theorem C9_sorted_keys_tiebreak (df : DF) (i : Insights)
    (h : generate_insights df = some i) :
    ((i.top_industry, maxVal (industry_share df)) ∈ industry_share df) ∧
    (∀ p ∈ industry_share df, p.2 ≤ maxVal (industry_share df)) ∧
    (∀ p ∈ industry_share df,
      p.2 = maxVal (industry_share df) → strLe i.top_industry p.1) ∧
    ((i.growth_industry, maxVal (industry_stats df)) ∈ industry_stats df) ∧
    (∀ p ∈ industry_stats df,
      p.2 = maxVal (industry_stats df) → strLe i.growth_industry p.1) ∧
    (∀ rows' : List Row, df.rows.Perm rows' → ∀ cols' : List String,
      generate_insights ⟨cols', rows'⟩ = some i) := by
  have hs := generate_insights_some df i h
  refine ⟨idxmax_mem_max _ _ hs.1, fun p hp => series_le_max _ p hp, ?_,
    idxmax_mem_max _ _ hs.2.1, ?_, ?_⟩
  · apply idxmax_lex_first _ _ ?_ hs.1
    rw [industry_share_keys]
    exact groupKeys_sorted df
  · apply idxmax_lex_first _ _ ?_ hs.2.1
    rw [industry_stats_keys]
    exact groupKeys_sorted df
  · intro rows' hperm cols'
    have he := generate_insights_perm hperm df.cols cols'
    rw [← he]
    exact h

/-- Witness for C9: the example's insights survive reversing the rows. -/
theorem C9_witness :
    generate_insights ⟨[], dfEx.rows.reverse⟩ = some iEx :=
  (C9_sorted_keys_tiebreak dfEx iEx (by decide)).2.2.2.2.2 dfEx.rows.reverse
    (List.reverse_perm dfEx.rows).symm []

/-- A validated row that already carries a Total Workers column. -/
def rowShadow : Row := mkRow "Coal Mine" 7 0 ++ [("Total Workers", Cell.num 999)]

/-- The one-row table around `rowShadow`, whose header already contains
Total Workers. -/
def dfShadowRaw : DF := ⟨required_cols ++ ["Total Workers"], [rowShadow]⟩

/-- C10 counterexample: on a validated input that already has a Total
Workers column, that input column (outside the ten numeric ones) is
overwritten, and only three new columns are appended, so the claim's
universal only-the-ten-rewritten and exactly-four-added parts fail. -/
theorem C10_counterexample :
    missingCols dfShadowRaw = [] ∧
    "Total Workers" ∈ dfShadowRaw.cols ∧
    "Total Workers" ∉ numeric_cols ∧
    getCell rowShadow "Total Workers" = Cell.num 999 ∧
    getCell (transformRow rowShadow) "Total Workers" = Cell.num 7 ∧
    transform_cols dfShadowRaw.cols =
      dfShadowRaw.cols ++ ["Female Ratio", "Urban Ratio", "Industry Category"] := by
  decide

/-- C10 amended: on every validated table whose header has none of the
four derived column names, the transform keeps the rows in number and
order, appends exactly the four derived columns, rewrites exactly the ten
numeric columns by coercion, gives the derived columns their defining
values, and leaves every other column's values unchanged. -/
theorem C10_frame_effect (df : DF) (hv : missingCols df = [])
    (hd : ∀ c ∈ derived_cols, c ∉ df.cols) :
    process_data df = Except.ok (transform df) ∧
    (transform df).rows = df.rows.map transformRow ∧
    (transform df).rows.length = df.rows.length ∧
    (transform df).cols = df.cols ++ derived_cols ∧
    (∀ r : Row, ∀ c ∈ numeric_cols, getCell (transformRow r) c = to_numeric (getCell r c)) ∧
    (∀ r : Row, ∀ c : String, c ∉ numeric_cols → c ∉ derived_cols →
      getCell (transformRow r) c = getCell r c) ∧
    (∀ r : Row,
      getCell (transformRow r) "Total Workers" = Cell.num (tw_val r) ∧
      getCell (transformRow r) "Female Ratio" = Cell.num (safeDiv (fem_sum r) (tw_val r)) ∧
      getCell (transformRow r) "Urban Ratio" = Cell.num (safeDiv (urb_sum r) (tw_val r)) ∧
      getCell (transformRow r) "Industry Category" =
        Cell.text (classify_industry (getCell r "NIC_Name"))) := by
  refine ⟨by simp [process_data, hv], rfl, by simp [transform], ?_,
    fun r c hc => transformRow_numeric r c hc,
    fun r c h1 h2 => transformRow_other r c h1 h2,
    fun r => ⟨transformRow_tw r, transformRow_fr r, transformRow_ur r, transformRow_cat r⟩⟩
  show transform_cols df.cols = df.cols ++ derived_cols
  unfold transform_cols
  congr 1
  rw [List.filter_eq_self]
  intro c hc
  simpa using hd c hc

/-- Witness for C10 at the example table. -/
theorem C10_witness :
    (transform dfExRaw).cols = dfExRaw.cols ++ derived_cols :=
  (C10_frame_effect dfExRaw (by decide) (by decide)).2.2.2.1

end IHR
